import Mathlib

/-!
Verification of the query-result projection engine in `bin/jpath.py`.

The Python runtime values that flow through the program are modelled by the
inductive type `PyVal` (numbers restricted to integers, which is all the
specification exercises).  Python dictionaries are modelled as insertion-ordered
association lists whose keys are hashable scalar values (`PyKey`); an update of
an existing key keeps the entry position, an insertion appends at the end,
exactly like CPython dictionaries.  `json.dumps(..., ensure_ascii=False)` and
Python `str` are embedded as executable functions on `PyVal`.  The external
JSON text parser (`json.loads` on strings) and the external JMESPath evaluator
are opaque collaborators and therefore appear as function parameters.
-/

/-- Hashable Python scalar values, the only values usable as dict keys. -/
inductive PyKey where
  | null
  | bool (b : Bool)
  | int (n : Int)
  | str (s : String)
deriving DecidableEq, Repr

/-- Python runtime values (JSON values plus dicts with non-string keys,
which `to_hash` can produce). -/
inductive PyVal where
  | null
  | bool (b : Bool)
  | int (n : Int)
  | str (s : String)
  | list (xs : List PyVal)
  | dict (entries : List (PyKey × PyVal))

/-- Python `==` identifies `True` with `1` and `False` with `0`; canonicalize
booleans to integers before comparing keys. -/
def canonKey : PyKey → PyKey
  | .bool b => .int (if b then 1 else 0)
  | k => k

/-- Python `==` on dict keys. -/
def keyEq (a b : PyKey) : Bool := canonKey a == canonKey b

/-- A dict key, viewed again as a Python value (used by `items()`). -/
def keyVal : PyKey → PyVal
  | .null => .null
  | .bool b => .bool b
  | .int n => .int n
  | .str s => .str s

/-- Hashing a Python value: scalars are hashable, lists and dicts raise
`TypeError` (modelled as `none`). -/
def toKey : PyVal → Option PyKey
  | .null => some .null
  | .bool b => some (.bool b)
  | .int n => some (.int n)
  | .str s => some (.str s)
  | .list _ => none
  | .dict _ => none

def isStrKey : PyKey → Bool
  | .str _ => true
  | _ => false

/-- Dict lookup (`d[k]` / `k in d`), by Python equality. -/
def dictLookup (es : List (PyKey × PyVal)) (k : PyKey) : Option PyVal :=
  match es.find? (fun e => keyEq e.1 k) with
  | some e => some e.2
  | none => none

/-- Dict assignment `d[k] = v`: update in place if the key is present
(keeping the originally stored key and its position), else append. -/
def dictSet (es : List (PyKey × PyVal)) (k : PyKey) (v : PyVal) : List (PyKey × PyVal) :=
  if es.any (fun e => keyEq e.1 k) then
    es.map (fun e => if keyEq e.1 k then (e.1, v) else e)
  else
    es ++ [(k, v)]

/-- A Splunk record: an insertion-ordered mapping from field names to values. -/
abbrev Record := List (String × PyVal)

def getField (record : Record) (k : String) : Option PyVal :=
  match record.find? (fun e => e.1 == k) with
  | some e => some e.2
  | none => none

def setField (record : Record) (k : String) (v : PyVal) : Record :=
  if record.any (fun e => e.1 == k) then
    record.map (fun e => if e.1 == k then (e.1, v) else e)
  else
    record ++ [(k, v)]

def hexDigit (n : Nat) : Char :=
  if n < 10 then Char.ofNat (48 + n) else Char.ofNat (87 + n)

/-- JSON string escaping as performed by `json.dumps` with
`ensure_ascii=False`: only quotes, backslashes and control characters are
escaped; all other characters (Unicode included) pass through unchanged. -/
def jsonEscapeChar (c : Char) : List Char :=
  if c == '"' then ['\\', '"']
  else if c == '\\' then ['\\', '\\']
  else if c == '\n' then ['\\', 'n']
  else if c == '\r' then ['\\', 'r']
  else if c == '\t' then ['\\', 't']
  else if c == Char.ofNat 8 then ['\\', 'b']
  else if c == Char.ofNat 12 then ['\\', 'f']
  else if c.toNat < 32 then
    ['\\', 'u', '0', '0', hexDigit (c.toNat / 16), hexDigit (c.toNat % 16)]
  else [c]

def jsonEscape (s : String) : String :=
  String.mk (s.toList.foldr (fun c acc => jsonEscapeChar c ++ acc) [])

/-- `json.dumps` coerces scalar dict keys to JSON strings. -/
def dumpKey : PyKey → String
  | .null => "\"null\""
  | .bool true => "\"true\""
  | .bool false => "\"false\""
  | .int n => "\"" ++ toString n ++ "\""
  | .str s => "\"" ++ jsonEscape s ++ "\""

mutual

/-- `json.dumps(v, ensure_ascii=False)` with the default separators. -/
def dumps : PyVal → String
  | .null => "null"
  | .bool true => "true"
  | .bool false => "false"
  | .int n => toString n
  | .str s => "\"" ++ jsonEscape s ++ "\""
  | .list xs => "[" ++ dumpsList xs ++ "]"
  | .dict es => "\x7b" ++ dumpsEntries es ++ "\x7d"

def dumpsList : List PyVal → String
  | [] => ""
  | [x] => dumps x
  | x :: xs => dumps x ++ ", " ++ dumpsList xs

def dumpsEntries : List (PyKey × PyVal) → String
  | [] => ""
  | [e] => dumpKey e.1 ++ ": " ++ dumps e.2
  | e :: es => dumpKey e.1 ++ ": " ++ dumps e.2 ++ ", " ++ dumpsEntries es

end

/-- The apostrophe character, Python's preferred string-repr quote. -/
def squote : Char := Char.ofNat 39

def pyReprCharIn (q : Char) (c : Char) : List Char :=
  if c == '\\' then ['\\', '\\']
  else if c == q then ['\\', q]
  else if c == '\n' then ['\\', 'n']
  else if c == '\r' then ['\\', 'r']
  else if c == '\t' then ['\\', 't']
  else if c.toNat < 32 then ['\\', 'x', hexDigit (c.toNat / 16), hexDigit (c.toNat % 16)]
  else [c]

/-- Python `repr` of a string: single-quoted, unless the text contains a
single quote but no double quote. -/
def pyReprStr (s : String) : String :=
  let q := if s.toList.contains squote && !(s.toList.contains '"') then '"' else squote
  String.mk (q :: s.toList.foldr (fun c acc => pyReprCharIn q c ++ acc) [q])

/-- Python `repr` of a (scalar) dict key. -/
def pyReprKey : PyKey → String
  | .null => "None"
  | .bool true => "True"
  | .bool false => "False"
  | .int n => toString n
  | .str s => pyReprStr s

mutual

/-- Python `repr` (reached by `str` on lists and dicts). -/
def pyRepr : PyVal → String
  | .null => "None"
  | .bool true => "True"
  | .bool false => "False"
  | .int n => toString n
  | .str s => pyReprStr s
  | .list xs => "[" ++ pyReprList xs ++ "]"
  | .dict es => "\x7b" ++ pyReprEntries es ++ "\x7d"

def pyReprList : List PyVal → String
  | [] => ""
  | [x] => pyRepr x
  | x :: xs => pyRepr x ++ ", " ++ pyReprList xs

def pyReprEntries : List (PyKey × PyVal) → String
  | [] => ""
  | [e] => pyReprKey e.1 ++ ": " ++ pyRepr e.2
  | e :: es => pyReprKey e.1 ++ ": " ++ pyRepr e.2 ++ ", " ++ pyReprEntries es

end

/-- Python `str()`. -/
def pyStr : PyVal → String
  | .null => "None"
  | .bool true => "True"
  | .bool false => "False"
  | .int n => toString n
  | .str s => s
  | .list xs => pyRepr (.list xs)
  | .dict es => pyRepr (.dict es)

/-- `flatten(container)` from `bin/jpath.py`: a dict yields its JSON text;
a list yields one token per element (JSON text for composite elements,
`str` for scalars); anything else yields its `str`. -/
def flatten : PyVal → List String
  | .dict es => [dumps (.dict es)]
  | .list xs =>
      xs.map (fun i =>
        match i with
        | .list _ => dumps i
        | .dict _ => dumps i
        | _ => pyStr i)
  | v => [pyStr v]

/-- Python `output.replace(pat, rep, 1)` on character lists: replace the
first occurrence of `pat` only. -/
def replOnceAux (pat rep : List Char) : List Char → List Char
  | [] => []
  | c :: cs =>
      if List.isPrefixOf pat (c :: cs) then rep ++ (c :: cs).drop pat.length
      else c :: replOnceAux pat rep cs

def strReplaceOnce (s pat rep : String) : String :=
  String.mk (replOnceAux pat.toList rep.toList s.toList)

/-- The orchestrator's test selecting wildcard mode: whether the output
specification contains a star. -/
def hasStar (s : String) : Bool :=
  s.toList.any (fun c => c == '*')

/-- `output_to_field(values, output, record)` from `bin/jpath.py`: flatten
the query result; zero tokens set the field to `None`, one token assigns it
as a scalar string, several tokens assign the list of token strings. -/
def output_to_field (values : PyVal) (output : String) (record : Record) : Record :=
  match flatten values with
  | [] => setField record output .null
  | [c] => setField record output (.str c)
  | cs => setField record output (.list (cs.map .str))

/-- The body of `output_to_wildcard`'s loop over `values.items()`.  Note that
the source reassigns its `output` variable with the substitution result, so
the updated name is threaded to the next iteration (this is what the first
component of the accumulator models).  A non-string key makes
`str.replace` raise `TypeError`, which escapes the function. -/
def wildcardLoop : List (PyKey × PyVal) → String → Record → Except String Record
  | [], _, record => .ok record
  | (k, value) :: rest, output, record =>
      match k with
      | .str key =>
          let out := strReplaceOnce output "*" key
          let record2 :=
            match value with
            | .list [] => setField record out .null
            | .list [x] => setField record out x
            | .list xs => setField record out (.str (dumps (.list xs)))
            | .dict es => setField record out (.str (dumps (.dict es)))
            | v => setField record out v
          wildcardLoop rest out record2
      | _ => .error "replace expected a str instance"

/-- `output_to_wildcard(values, output, record)` from `bin/jpath.py`. -/
def output_to_wildcard (values : PyVal) (output : String) (record : Record) :
    Except String Record :=
  match values with
  | .null => .ok record
  | .dict es => wildcardLoop es output record
  | v => .ok (setField record output (.str (dumps v)))

/-- `_func_items`: one `[name, value]` pair per object entry, in order. -/
def itemsOf (es : List (PyKey × PyVal)) : List PyVal :=
  es.map (fun e => .list [keyVal e.1, e.2])

def func_items (es : List (PyKey × PyVal)) : PyVal :=
  .list (itemsOf es)

/-- Python iterable unpacking `key, val = item` restricted to the values in
scope: a 2-element list unpacks to its elements, a 2-character string to its
characters, a 2-entry dict to its keys; everything else raises (`ValueError`
or `TypeError`), modelled as `none`. -/
def unpackTwo : PyVal → Option (PyVal × PyVal)
  | .list [a, b] => some (a, b)
  | .str s =>
      match s.toList with
      | [c1, c2] => some (.str (String.singleton c1), .str (String.singleton c2))
      | _ => none
  | .dict [e1, e2] => some (keyVal e1.1, keyVal e2.1)
  | _ => none

/-- One iteration of `_func_to_hash`: elements that fail to unpack, and
pairs whose key is unhashable, are skipped by the blanket `except`; a
successful pair is stored with `h[key] = val`. -/
def toHashStep (h : List (PyKey × PyVal)) (item : PyVal) : List (PyKey × PyVal) :=
  match unpackTwo item with
  | none => h
  | some (k, v) =>
      match toKey k with
      | none => h
      | some key => dictSet h key v

/-- The dict built by `_func_to_hash`. -/
def toHashEntries (array : List PyVal) : List (PyKey × PyVal) :=
  array.foldl toHashStep []

def func_to_hash (array : List PyVal) : PyVal :=
  .dict (toHashEntries array)

/-- Errors a Python callable can raise towards the query engine. -/
inductive PyErr where
  | typeError (msg : String)
  | valueError (msg : String)
deriving DecidableEq, Repr

/-- `json.loads` applied to an arbitrary value, parameterized by the external
text parser `p`: non-strings raise `TypeError`, unparsable text raises
`ValueError`. -/
def loads (p : String → Option PyVal) : PyVal → Except PyErr PyVal
  | .str s =>
      match p s with
      | some v => .ok v
      | none => .error (.valueError "Invalid JSON text")
  | _ => .error (.typeError "the JSON object must be str")

/-- The list comprehension `[json.loads(i) for i in s]`: elements parsed
left to right, the first exception aborting the whole comprehension. -/
def loadsEach (p : String → Option PyVal) : List PyVal → Except PyErr (List PyVal)
  | [] => .ok []
  | x :: xs =>
      match loads p x with
      | .error e => .error e
      | .ok v =>
          match loadsEach p xs with
          | .error e => .error e
          | .ok vs => .ok (v :: vs)

/-- `_func_from_string`: `null` passes through; an array is element-wise
parsed with failures propagating; anything else is parsed best-effort, the
original value being returned when parsing raises. -/
def func_from_string (p : String → Option PyVal) (s : PyVal) : Except PyErr PyVal :=
  match s with
  | .null => .ok .null
  | .list xs => (loadsEach p xs).map .list
  | v =>
      match loads p v with
      | .ok r => .ok r
      | .error _ => .ok v

/-- `str(k)` coercion used by `_func_unroll` on a non-string key. -/
def coerceKeyStr : PyVal → String
  | .str s => s
  | v => pyStr v

/-- The loop of `_func_unroll`: `item[key]` on a non-dict raises `TypeError`
(not caught — only `KeyError` is); a missing key or value field skips the
element; the aggregation promotes a scalar to a two-element list on the
second occurrence of a key and appends to an existing list. -/
def unrollLoop (key value : String) :
    List PyVal → List (PyKey × PyVal) → Except PyErr (List (PyKey × PyVal))
  | [], d => .ok d
  | item :: rest, d =>
      match item with
      | .dict es =>
          match dictLookup es (.str key) with
          | none => unrollLoop key value rest d
          | some kraw =>
              match dictLookup es (.str value) with
              | none => unrollLoop key value rest d
              | some v =>
                  let k : PyKey := .str (coerceKeyStr kraw)
                  let d2 :=
                    match dictLookup d k with
                    | none => dictSet d k v
                    | some (.list l) => dictSet d k (.list (l ++ [v]))
                    | some old => dictSet d k (.list [old, v])
                  unrollLoop key value rest d2
      | _ => .error (.typeError "indices must be integers")

def func_unroll (objs : List PyVal) (key value : String) : Except PyErr PyVal :=
  (unrollLoop key value objs []).map .dict

/-- The recognized streaming-command options of the `JMESPath` command. -/
structure StreamConfig where
  error : String
  default : Option String
  input : String
  output : String

/-- Outcome of evaluating the compiled expression on one parsed document,
as classified by the `except` clauses in `JMESPath.stream`. -/
inductive EvalOutcome where
  | ok (v : Option PyVal)
  | unknownFunction (msg : String)
  | jmespathError (msg : String)
  | exception (msg : String)

/-- An exception escaping `JMESPath.stream` and aborting the record loop. -/
inductive StreamAbort where
  | indexError
  | typeError
  | valueError (msg : String)
deriving DecidableEq, Repr

/-- Processing of a single record by `JMESPath.stream`, parameterized by the
external JSON text parser `p` and the compiled-expression evaluator `q`.
Reading the input field of a record that lacks it gives `None`; an input
field holding an empty list raises `IndexError` outside any handler; only
`ValueError` is caught around `json.loads`, so a non-string field raises an
uncaught `TypeError`; an unknown-function evaluation error is re-raised as
`ValueError` and aborts the stream, every other evaluation failure writes a
diagnostic into the error field and the record is still emitted. -/
def processRecord (cfg : StreamConfig) (p : String → Option PyVal)
    (q : PyVal → EvalOutcome) (record : Record) : Except StreamAbort Record :=
  match (getField record cfg.input).getD PyVal.null with
  | .list [] => .error .indexError
  | f0 =>
      let field :=
        match f0 with
        | .list (x :: _) => x
        | v => v
      match field with
      | .str s =>
          match p s with
          | none => .ok (setField record cfg.error (.str "Invalid JSON."))
          | some fieldJson =>
              match q fieldJson with
              | .ok none =>
                  match cfg.default with
                  | some d => .ok (setField record cfg.output (.str d))
                  | none => .ok record
              | .ok (some out) =>
                  if hasStar cfg.output then
                    match output_to_wildcard out cfg.output record with
                    | .ok r => .ok r
                    | .error e => .ok (setField record cfg.error (.str ("Exception: " ++ e)))
                  else
                    .ok (output_to_field out cfg.output record)
              | .unknownFunction m =>
                  .error (.valueError ("Issue with JMESPath expression. " ++ m))
              | .jmespathError m =>
                  .ok (setField record cfg.error (.str ("JMESPath error: " ++ m)))
              | .exception m =>
                  .ok (setField record cfg.error (.str ("Exception: " ++ m)))
      | _ => .error .typeError

/-- The record loop of `JMESPath.stream`: records processed in order; an
uncaught exception stops the generator, the offending record and all later
records are never emitted. -/
def runStream (cfg : StreamConfig) (p : String → Option PyVal)
    (q : PyVal → EvalOutcome) : List Record → List Record × Option StreamAbort
  | [] => ([], none)
  | r :: rs =>
      match processRecord cfg p q r with
      | .error a => ([], some a)
      | .ok r2 =>
          let rest := runStream cfg p q rs
          (r2 :: rest.1, rest.2)

/-- Is this value a Python dict? -/
def isDict : PyVal → Bool
  | .dict _ => true
  | _ => false

/-- The input-field value a record contributes to `json.loads`: the
configured field (missing fields read as `None`), de-multivalued by taking
the first element of a nonempty list. -/
def extractField (cfg : StreamConfig) (record : Record) : PyVal :=
  match (getField record cfg.input).getD PyVal.null with
  | .list (x :: _) => x
  | v => v

/-- A record whose extracted input field is a string: the only shape for
which `json.loads` can run (anything else raises before or inside it). -/
def goodInput (cfg : StreamConfig) (record : Record) : Bool :=
  match extractField cfg record with
  | .str _ => true
  | _ => false

/-- Follows the spec words (§4.2, amended): the zero/one/many reduction of a
token sequence — zero tokens assign null, one token assigns that string as a
scalar, two or more assign the ordered sequence of token strings. -/
def specLiteralReduce : List String → PyVal
  | [] => .null
  | [t] => .str t
  | ts => .list (ts.map .str)

/-- Follows the spec words (§4.2): the token an array element contributes —
composite elements are serialized to their JSON text, any other element is
stringified with the host stringification. -/
def elemTokenSpec : PyVal → String
  | .list xs => dumps (.list xs)
  | .dict es => dumps (.dict es)
  | v => pyStr v

/-- Follows the spec words (§4.1, `from_string` array case): independently
JSON-parse every element; any element that is not a successfully parsed
string makes the whole call fail with no partial result. -/
def parseEach (p : String → Option PyVal) : List PyVal → Option (List PyVal)
  | [] => some []
  | x :: xs =>
      match x with
      | .str s =>
          match p s, parseEach p xs with
          | some v, some vs => some (v :: vs)
          | _, _ => none
      | _ => none

/-- A dict whose keys, lifted from a string association list. -/
def liftEntries (sd : List (String × PyVal)) : List (PyKey × PyVal) :=
  sd.map (fun e => (PyKey.str e.1, e.2))

/-- First-match lookup in a string association list. -/
def specFind : List (String × PyVal) → String → Option PyVal
  | [], _ => none
  | e :: es, k => if e.1 == k then some e.2 else specFind es k

/-- Follows the spec words (§4.1, `unroll` aggregation rule): an unseen key
is stored directly; a second occurrence promotes the stored scalar to a
2-element array holding the old then the new value; further occurrences
append to the existing array.  Entry positions are never changed, so
first-occurrence order of distinct keys is preserved. -/
def specAggregate (d : List (String × PyVal)) (k : String) (v : PyVal) :
    List (String × PyVal) :=
  match specFind d k with
  | none => d ++ [(k, v)]
  | some (.list l) => d.map (fun e => if e.1 == k then (e.1, .list (l ++ [v])) else e)
  | some old => d.map (fun e => if e.1 == k then (e.1, .list [old, v]) else e)

/-- Follows the spec words (§4.1, `unroll`): iterate the array of objects in
order; an element missing the key field or the value field is silently
skipped; a found key is coerced to a string; found pairs are aggregated by
`specAggregate`. -/
def specUnrollLoop (kf vf : String) :
    List PyVal → List (String × PyVal) → List (String × PyVal)
  | [], d => d
  | item :: rest, d =>
      match item with
      | .dict es =>
          match dictLookup es (.str kf), dictLookup es (.str vf) with
          | some kraw, some v => specUnrollLoop kf vf rest (specAggregate d (coerceKeyStr kraw) v)
          | _, _ => specUnrollLoop kf vf rest d
      | _ => specUnrollLoop kf vf rest d

def specUnroll (objs : List PyVal) (kf vf : String) : List (String × PyVal) :=
  specUnrollLoop kf vf objs []

/-- A real Python dict: keys pairwise distinct under Python equality. -/
def wfDict : List (PyKey × PyVal) → Bool
  | [] => true
  | e :: es => !(es.any (fun e2 => keyEq e.1 e2.1)) && wfDict es

/-- The stringification of a key, for the collision condition of the
pairs/to_hash inverse law. -/
def strOfKey (k : PyKey) : String := pyStr (keyVal k)

/-- Keys pairwise distinct after stringification. -/
def noStrCollide : List (PyKey × PyVal) → Bool
  | [] => true
  | e :: es => !(es.any (fun e2 => strOfKey e.1 == strOfKey e2.1)) && noStrCollide es

theorem keyEq_refl (a : PyKey) : keyEq a a = true := by
  simp [keyEq]

theorem keyEq_symm (a b : PyKey) : keyEq a b = keyEq b a := by
  by_cases h : canonKey a = canonKey b
  · simp [keyEq, h]
  · have h2 : canonKey b ≠ canonKey a := fun hh => h hh.symm
    simp [keyEq, h, h2]

theorem keyEq_trans {a b c : PyKey} (h1 : keyEq a b = true) (h2 : keyEq b c = true) :
    keyEq a c = true := by
  simp [keyEq] at h1 h2 ⊢
  exact h1.trans h2

theorem keyEq_str (a b : String) : keyEq (.str a) (.str b) = (a == b) := by
  by_cases h : a = b <;> simp [keyEq, canonKey, h]

theorem toKey_keyVal (k : PyKey) : toKey (keyVal k) = some k := by
  cases k <;> rfl

theorem dictLookup_nil (k : PyKey) : dictLookup [] k = none := rfl

theorem dictLookup_cons (e : PyKey × PyVal) (es : List (PyKey × PyVal)) (k : PyKey) :
    dictLookup (e :: es) k = if keyEq e.1 k then some e.2 else dictLookup es k := by
  cases h : keyEq e.1 k <;> simp [dictLookup, List.find?_cons, h]

theorem dictSet_absent (es : List (PyKey × PyVal)) (k : PyKey) (v : PyVal)
    (h : es.any (fun e => keyEq e.1 k) = false) : dictSet es k v = es ++ [(k, v)] := by
  simp [dictSet, h]

theorem lookup_replace_ne (es : List (PyKey × PyVal)) (k q : PyKey) (v : PyVal)
    (hkq : keyEq k q = false) :
    dictLookup (es.map (fun e => if keyEq e.1 k then (e.1, v) else e)) q = dictLookup es q := by
  induction es with
  | nil => rfl
  | cons e es ih =>
    by_cases h1 : keyEq e.1 k = true
    · have h2 : keyEq e.1 q = false := by
        cases h3 : keyEq e.1 q
        · rfl
        · rw [keyEq_symm] at h1
          rw [keyEq_trans h1 h3] at hkq
          exact hkq.symm ▸ rfl
      simp [List.map_cons, h1, dictLookup_cons, h2, ih]
    · have h1f : keyEq e.1 k = false := by cases h3 : keyEq e.1 k; rfl; exact absurd h3 h1
      simp [List.map_cons, h1f, dictLookup_cons, ih]

theorem dictLookup_dictSet (d : List (PyKey × PyVal)) (k q : PyKey) (v : PyVal) :
    dictLookup (dictSet d k v) q = if keyEq k q then some v else dictLookup d q := by
  induction d with
  | nil => cases h : keyEq k q <;> simp [dictSet, dictLookup_cons, dictLookup_nil, h]
  | cons e es ih =>
    by_cases h1 : keyEq e.1 k = true
    · have hany : (e :: es).any (fun x => keyEq x.1 k) = true := by
        simp [List.any_cons, h1]
      rw [dictSet, if_pos hany, List.map_cons]
      by_cases hq : keyEq k q = true
      · have he : keyEq e.1 q = true := keyEq_trans h1 hq
        simp [dictLookup_cons, h1, he, hq]
      · have hqf : keyEq k q = false := by
          cases h3 : keyEq k q; rfl; exact absurd h3 hq
        have he : keyEq e.1 q = false := by
          cases h3 : keyEq e.1 q
          · rfl
          · rw [keyEq_symm] at h1
            rw [keyEq_trans h1 h3] at hqf
            exact hqf.symm ▸ rfl
        simp [dictLookup_cons, h1, he, hqf, lookup_replace_ne es k q v hqf]
    · have h1f : keyEq e.1 k = false := by cases h3 : keyEq e.1 k; rfl; exact absurd h3 h1
      have hstep : dictSet (e :: es) k v = e :: dictSet es k v := by
        by_cases h2 : es.any (fun x => keyEq x.1 k) = true
        · rw [dictSet, dictSet]
          simp [List.any_cons, h1f, h2]
        · have h2f : es.any (fun x => keyEq x.1 k) = false := by
            cases h3 : es.any (fun x => keyEq x.1 k); rfl; exact absurd h3 h2
          rw [dictSet, dictSet]
          simp [List.any_cons, h1f, h2f]
      rw [hstep, dictLookup_cons, dictLookup_cons, ih]
      by_cases hq : keyEq k q = true
      · have he : keyEq e.1 q = false := by
          cases h3 : keyEq e.1 q
          · rfl
          · rw [keyEq_symm] at hq
            rw [keyEq_trans h3 hq] at h1f
            exact h1f.symm ▸ rfl
        simp [he, hq]
      · simp [hq]

theorem toHashEntries_snoc (xs : List PyVal) (item : PyVal) :
    toHashEntries (xs ++ [item]) = toHashStep (toHashEntries xs) item := by
  rw [toHashEntries, toHashEntries, List.foldl_append]
  rfl

theorem toHash_items_aux (es : List (PyKey × PyVal)) :
    ∀ d : List (PyKey × PyVal), wfDict es = true →
    (∀ x ∈ es, ∀ e2 ∈ d, keyEq e2.1 x.1 = false) →
    List.foldl toHashStep d (itemsOf es) = d ++ es := by
  induction es with
  | nil => intro d _ _; simp [itemsOf, toHashEntries]
  | cons e es ih =>
    intro d hwf hdisj
    rw [itemsOf, List.map_cons, List.foldl_cons]
    have hstep : toHashStep d (.list [keyVal e.1, e.2]) = dictSet d e.1 e.2 := by
      rw [toHashStep]
      simp [unpackTwo, toKey_keyVal]
    have hdh : d.any (fun e2 => keyEq e2.1 e.1) = false := by
      rw [List.any_eq_false]
      intro x hx
      simp [hdisj e (by simp) x hx]
    rw [hstep, dictSet_absent d e.1 e.2 hdh]
    rw [wfDict, Bool.and_eq_true] at hwf
    have hne : es.any (fun e2 => keyEq e.1 e2.1) = false := by
      have h1 := hwf.1
      cases h3 : es.any (fun e2 => keyEq e.1 e2.1)
      · rfl
      · rw [h3] at h1
        exact absurd h1 (by simp)
    have hdisj2 : ∀ x ∈ es, ∀ e2 ∈ d ++ [(e.1, e.2)], keyEq e2.1 x.1 = false := by
      intro x hx e2 he2
      rcases List.mem_append.mp he2 with hin | hin
      · exact hdisj x (by simp [hx]) e2 hin
      · have : e2 = (e.1, e.2) := by simpa using hin
        subst this
        have := List.any_eq_false.mp hne x hx
        simpa using this
    have := ih (d ++ [(e.1, e.2)]) hwf.2 hdisj2
    rw [itemsOf] at this
    rw [this]
    simp

theorem itemsOf_congr (es : List (PyKey × PyVal)) :
    func_items es = .list (itemsOf es) := rfl


theorem liftFind (sd : List (String × PyVal)) (k : String) :
    dictLookup (liftEntries sd) (.str k) = specFind sd k := by
  induction sd with
  | nil => rfl
  | cons e es ih =>
    simp only [liftEntries, List.map_cons] at ih ⊢
    rw [dictLookup_cons]
    cases h : e.1 == k
    · have h1 : keyEq (PyKey.str e.1) (PyKey.str k) = false := by rw [keyEq_str]; exact h
      simp [specFind, h1, h, ih]
    · have h1 : keyEq (PyKey.str e.1) (PyKey.str k) = true := by rw [keyEq_str]; exact h
      simp [specFind, h1, h]

theorem liftAny (sd : List (String × PyVal)) (k : String) :
    (liftEntries sd).any (fun e => keyEq e.1 (.str k)) = (specFind sd k).isSome := by
  induction sd with
  | nil => rfl
  | cons e es ih =>
    simp only [liftEntries, List.map_cons] at ih ⊢
    rw [List.any_cons]
    cases h : e.1 == k
    · have h1 : keyEq (PyKey.str e.1) (PyKey.str k) = false := by rw [keyEq_str]; exact h
      simp [specFind, h1, h, ih]
    · have h1 : keyEq (PyKey.str e.1) (PyKey.str k) = true := by rw [keyEq_str]; exact h
      simp [specFind, h1, h]

theorem liftSet_new (sd : List (String × PyVal)) (k : String) (v : PyVal)
    (h : specFind sd k = none) :
    dictSet (liftEntries sd) (.str k) v = liftEntries (sd ++ [(k, v)]) := by
  have hany : (liftEntries sd).any (fun e => keyEq e.1 (.str k)) = false := by
    rw [liftAny, h]
    rfl
  rw [dictSet_absent _ _ _ hany, liftEntries, liftEntries, List.map_append]
  rfl

theorem liftReplace (sd : List (String × PyVal)) (k : String) (v : PyVal) :
    (liftEntries sd).map (fun e => if keyEq e.1 (.str k) then (e.1, v) else e) =
      liftEntries (sd.map (fun e => if e.1 == k then (e.1, v) else e)) := by
  induction sd with
  | nil => rfl
  | cons e es ih =>
    simp only [liftEntries, List.map_cons] at ih ⊢
    cases h : e.1 == k
    · have h1 : keyEq (PyKey.str e.1) (PyKey.str k) = false := by rw [keyEq_str]; exact h
      simp only [h1, h, Bool.false_eq_true, if_false, List.map_cons, ih]
    · have h1 : keyEq (PyKey.str e.1) (PyKey.str k) = true := by rw [keyEq_str]; exact h
      simp only [h1, h, if_true, List.map_cons, ih]

theorem liftSet_upd (sd : List (String × PyVal)) (k : String) (v : PyVal)
    (h : (specFind sd k).isSome = true) :
    dictSet (liftEntries sd) (.str k) v =
      liftEntries (sd.map (fun e => if e.1 == k then (e.1, v) else e)) := by
  have hany : (liftEntries sd).any (fun e => keyEq e.1 (.str k)) = true := by
    rw [liftAny, h]
  rw [dictSet, if_pos hany]
  exact liftReplace sd k v

theorem unrollLoop_spec (kf vf : String) (objs : List PyVal) :
    ∀ sd : List (String × PyVal), objs.all isDict = true →
    unrollLoop kf vf objs (liftEntries sd) = .ok (liftEntries (specUnrollLoop kf vf objs sd)) := by
  induction objs with
  | nil => intro sd _; rfl
  | cons item rest ih =>
    intro sd hall
    rw [List.all_cons, Bool.and_eq_true] at hall
    cases item with
    | dict es =>
      cases hk : dictLookup es (.str kf) with
      | none =>
        simp only [unrollLoop, specUnrollLoop, hk]
        exact ih sd hall.2
      | some kraw =>
        cases hv : dictLookup es (.str vf) with
        | none =>
          simp only [unrollLoop, specUnrollLoop, hk, hv]
          exact ih sd hall.2
        | some v =>
          simp only [unrollLoop, specUnrollLoop, hk, hv, liftFind]
          cases hf : specFind sd (coerceKeyStr kraw) with
          | none =>
            simp only [hf, specAggregate, liftSet_new sd (coerceKeyStr kraw) v hf]
            exact ih (sd ++ [(coerceKeyStr kraw, v)]) hall.2
          | some old =>
            have hs : (specFind sd (coerceKeyStr kraw)).isSome = true := by
              rw [hf]
              rfl
            cases old with
            | list l =>
              simp only [hf, specAggregate, liftSet_upd sd (coerceKeyStr kraw) _ hs]
              exact ih _ hall.2
            | null =>
              simp only [hf, specAggregate, liftSet_upd sd (coerceKeyStr kraw) _ hs]
              exact ih _ hall.2
            | bool b =>
              simp only [hf, specAggregate, liftSet_upd sd (coerceKeyStr kraw) _ hs]
              exact ih _ hall.2
            | int n =>
              simp only [hf, specAggregate, liftSet_upd sd (coerceKeyStr kraw) _ hs]
              exact ih _ hall.2
            | str s =>
              simp only [hf, specAggregate, liftSet_upd sd (coerceKeyStr kraw) _ hs]
              exact ih _ hall.2
            | dict des =>
              simp only [hf, specAggregate, liftSet_upd sd (coerceKeyStr kraw) _ hs]
              exact ih _ hall.2
    | null => exact absurd hall.1 (by simp [isDict])
    | bool b => exact absurd hall.1 (by simp [isDict])
    | int n => exact absurd hall.1 (by simp [isDict])
    | str s => exact absurd hall.1 (by simp [isDict])
    | list xs => exact absurd hall.1 (by simp [isDict])

theorem dictSet_keys_all (P : PyKey → Bool) (d : List (PyKey × PyVal)) (k : PyKey) (v : PyVal)
    (hd : d.all (fun e => P e.1) = true) (hk : P k = true) :
    (dictSet d k v).all (fun e => P e.1) = true := by
  rw [dictSet]
  by_cases h : d.any (fun e => keyEq e.1 k) = true
  · rw [if_pos h]
    rw [List.all_eq_true] at hd ⊢
    intro x hx
    rcases List.mem_map.mp hx with ⟨e, he, hex⟩
    have hkey : x.1 = e.1 := by
      by_cases h2 : keyEq e.1 k = true
      · rw [if_pos h2] at hex
        rw [← hex]
      · rw [if_neg h2] at hex
        rw [← hex]
    have := hd e he
    simpa [hkey] using this
  · rw [if_neg h, List.all_append]
    simp [hd, hk]

theorem unrollLoop_strKeys (kf vf : String) (objs : List PyVal) :
    ∀ d d2 : List (PyKey × PyVal), d.all (fun e => isStrKey e.1) = true →
    unrollLoop kf vf objs d = .ok d2 → d2.all (fun e => isStrKey e.1) = true := by
  induction objs with
  | nil =>
    intro d d2 hd h
    rw [unrollLoop] at h
    injection h with h
    rw [← h]
    exact hd
  | cons item rest ih =>
    intro d d2 hd h
    cases item with
    | dict es =>
      rw [unrollLoop] at h
      cases hk : dictLookup es (.str kf) with
      | none =>
        rw [hk] at h
        exact ih d d2 hd h
      | some kraw =>
        rw [hk] at h
        cases hv : dictLookup es (.str vf) with
        | none =>
          rw [hv] at h
          exact ih d d2 hd h
        | some v =>
          rw [hv] at h
          simp only at h
          cases hl : dictLookup d (.str (coerceKeyStr kraw)) with
          | none =>
            rw [hl] at h
            exact ih _ d2 (dictSet_keys_all _ d (.str (coerceKeyStr kraw)) v hd rfl) h
          | some old =>
            rw [hl] at h
            cases old with
            | list l => exact ih _ d2 (dictSet_keys_all _ d (.str (coerceKeyStr kraw)) _ hd rfl) h
            | null => exact ih _ d2 (dictSet_keys_all _ d (.str (coerceKeyStr kraw)) _ hd rfl) h
            | bool b => exact ih _ d2 (dictSet_keys_all _ d (.str (coerceKeyStr kraw)) _ hd rfl) h
            | int n => exact ih _ d2 (dictSet_keys_all _ d (.str (coerceKeyStr kraw)) _ hd rfl) h
            | str s => exact ih _ d2 (dictSet_keys_all _ d (.str (coerceKeyStr kraw)) _ hd rfl) h
            | dict des => exact ih _ d2 (dictSet_keys_all _ d (.str (coerceKeyStr kraw)) _ hd rfl) h
    | null => exact Except.noConfusion h
    | bool b => exact Except.noConfusion h
    | int n => exact Except.noConfusion h
    | str s => exact Except.noConfusion h
    | list xs => exact Except.noConfusion h

theorem loadsEach_of_parseEach (p : String → Option PyVal) (xs : List PyVal) :
    ∀ ys, parseEach p xs = some ys → loadsEach p xs = .ok ys := by
  induction xs with
  | nil =>
    intro ys h
    rw [parseEach] at h
    injection h with h
    rw [← h]
    rfl
  | cons x xs ih =>
    intro ys h
    cases x with
    | str s =>
      rw [parseEach] at h
      cases hp : p s with
      | none =>
        rw [hp] at h
        simp at h
      | some v =>
        rw [hp] at h
        cases hr : parseEach p xs with
        | none =>
          rw [hr] at h
          simp at h
        | some vs =>
          rw [hr] at h
          simp only [Option.some.injEq] at h
          rw [loadsEach]
          simp [loads, hp, ih vs hr, ← h]
    | null => exact Option.noConfusion h
    | bool b => exact Option.noConfusion h
    | int n => exact Option.noConfusion h
    | list l => exact Option.noConfusion h
    | dict es => exact Option.noConfusion h

theorem loadsEach_of_parseEach_none (p : String → Option PyVal) (xs : List PyVal) :
    parseEach p xs = none → ∃ e, loadsEach p xs = .error e := by
  induction xs with
  | nil => intro h; simp [parseEach] at h
  | cons x xs ih =>
    intro h
    cases x with
    | str s =>
      rw [parseEach] at h
      cases hp : p s with
      | none => exact ⟨.valueError "Invalid JSON text", by simp [loadsEach, loads, hp]⟩
      | some v =>
        rw [hp] at h
        cases hr : parseEach p xs with
        | none =>
          rcases ih hr with ⟨e, he⟩
          exact ⟨e, by simp [loadsEach, loads, hp, he]⟩
        | some vs => rw [hr] at h; simp at h
    | null => exact ⟨.typeError "the JSON object must be str", by simp [loadsEach, loads]⟩
    | bool b => exact ⟨.typeError "the JSON object must be str", by simp [loadsEach, loads]⟩
    | int n => exact ⟨.typeError "the JSON object must be str", by simp [loadsEach, loads]⟩
    | list l => exact ⟨.typeError "the JSON object must be str", by simp [loadsEach, loads]⟩
    | dict es => exact ⟨.typeError "the JSON object must be str", by simp [loadsEach, loads]⟩

theorem output_to_field_spec (v : PyVal) (out : String) (record : Record) :
    output_to_field v out record = setField record out (specLiteralReduce (flatten v)) := by
  cases h : flatten v with
  | nil => simp [output_to_field, specLiteralReduce, h]
  | cons a tl =>
    cases tl with
    | nil => simp [output_to_field, specLiteralReduce, h]
    | cons b tl2 => simp [output_to_field, specLiteralReduce, h]

theorem flatten_list_map (xs : List PyVal) : flatten (.list xs) = xs.map elemTokenSpec := by
  induction xs with
  | nil => rfl
  | cons x xs ih =>
    simp only [flatten, List.map_cons] at ih ⊢
    rw [ih]
    cases x <;> rfl
theorem processRecord_good (cfg : StreamConfig) (p : String → Option PyVal)
    (q : PyVal → EvalOutcome) (r : Record) (h : goodInput cfg r = true) :
    (∃ r2, processRecord cfg p q r = .ok r2) ∨
    (∃ m, processRecord cfg p q r = .error (.valueError m)) := by
  rw [goodInput, extractField] at h
  cases hf0 : (getField r cfg.input).getD PyVal.null with
  | str s =>
    unfold processRecord
    rw [hf0]
    simp only
    cases hp : p s with
    | none => exact Or.inl ⟨_, rfl⟩
    | some fj =>
      cases hq : q fj with
      | ok ov =>
        cases ov with
        | none =>
          cases hd : cfg.default with
          | none => exact Or.inl ⟨_, by simp [hq, hd]; rfl⟩
          | some d => exact Or.inl ⟨_, by simp [hq, hd]; rfl⟩
        | some out =>
          by_cases hs : hasStar cfg.output = true
          · cases hw : output_to_wildcard out cfg.output r with
            | ok r2 => exact Or.inl ⟨_, by simp [hq, hs, hw]; rfl⟩
            | error e => exact Or.inl ⟨_, by simp [hq, hs, hw]; rfl⟩
          · exact Or.inl ⟨_, by simp [hq, hs]; rfl⟩
      | unknownFunction m => exact Or.inr ⟨_, by simp [hq]; rfl⟩
      | jmespathError m => exact Or.inl ⟨_, by simp [hq]; rfl⟩
      | exception m => exact Or.inl ⟨_, by simp [hq]; rfl⟩
  | null => rw [hf0] at h; simp at h
  | bool b => rw [hf0] at h; simp at h
  | int n => rw [hf0] at h; simp at h
  | dict es => rw [hf0] at h; simp at h
  | list xs =>
    cases xs with
    | nil => rw [hf0] at h; simp at h
    | cons x tl =>
      rw [hf0] at h
      cases x with
      | str s =>
        unfold processRecord
        rw [hf0]
        simp only
        cases hp : p s with
        | none => exact Or.inl ⟨_, rfl⟩
        | some fj =>
          cases hq : q fj with
          | ok ov =>
            cases ov with
            | none =>
              cases hd : cfg.default with
              | none => exact Or.inl ⟨_, by simp [hq, hd]; rfl⟩
              | some d => exact Or.inl ⟨_, by simp [hq, hd]; rfl⟩
            | some out =>
              by_cases hs : hasStar cfg.output = true
              · cases hw : output_to_wildcard out cfg.output r with
                | ok r2 => exact Or.inl ⟨_, by simp [hq, hs, hw]; rfl⟩
                | error e => exact Or.inl ⟨_, by simp [hq, hs, hw]; rfl⟩
              · exact Or.inl ⟨_, by simp [hq, hs]; rfl⟩
          | unknownFunction m => exact Or.inr ⟨_, by simp [hq]; rfl⟩
          | jmespathError m => exact Or.inl ⟨_, by simp [hq]; rfl⟩
          | exception m => exact Or.inl ⟨_, by simp [hq]; rfl⟩
      | null => simp at h
      | bool b => simp at h
      | int n => simp at h
      | dict es => simp at h
      | list l2 => simp at h

theorem processRecord_parse_fail (cfg : StreamConfig) (p : String → Option PyVal)
    (q : PyVal → EvalOutcome) (r : Record) (s : String)
    (hf : extractField cfg r = .str s) (hp : p s = none) :
    processRecord cfg p q r = .ok (setField r cfg.error (.str "Invalid JSON.")) := by
  rw [extractField] at hf
  cases hf0 : (getField r cfg.input).getD PyVal.null with
  | str s2 =>
    rw [hf0] at hf
    simp only [PyVal.str.injEq] at hf
    subst hf
    unfold processRecord
    rw [hf0]
    simp [hp]
  | null => rw [hf0] at hf; simp at hf
  | bool b => rw [hf0] at hf; simp at hf
  | int n => rw [hf0] at hf; simp at hf
  | dict es => rw [hf0] at hf; simp at hf
  | list xs =>
    cases xs with
    | nil => rw [hf0] at hf; simp at hf
    | cons x tl =>
      rw [hf0] at hf
      cases x with
      | str s2 =>
        simp only [PyVal.str.injEq] at hf
        subst hf
        unfold processRecord
        rw [hf0]
        simp [hp]
      | null => simp at hf
      | bool b => simp at hf
      | int n => simp at hf
      | dict es => simp at hf
      | list l2 => simp at hf

theorem runStream_contained (cfg : StreamConfig) (p : String → Option PyVal)
    (q : PyVal → EvalOutcome) : ∀ records : List Record,
    records.all (goodInput cfg) = true →
    (∀ a, (runStream cfg p q records).2 = some a → ∃ m, a = .valueError m) ∧
    ((runStream cfg p q records).2 = none →
      (runStream cfg p q records).1.length = records.length) := by
  intro records
  induction records with
  | nil =>
    intro _
    exact ⟨fun a ha => Option.noConfusion ha, fun _ => rfl⟩
  | cons r rs ih =>
    intro hall
    rw [List.all_cons, Bool.and_eq_true] at hall
    have ihs := ih hall.2
    rcases processRecord_good cfg p q r hall.1 with ⟨r2, hr⟩ | ⟨m, hr⟩
    · constructor
      · intro a ha
        rw [runStream, hr] at ha
        simp only at ha
        exact ihs.1 a ha
      · intro hnone
        rw [runStream, hr] at hnone ⊢
        simp only at hnone ⊢
        simp [ihs.2 hnone]
    · constructor
      · intro a ha
        rw [runStream, hr] at ha
        simp only at ha
        exact ⟨m, by injection ha with h2; exact h2.symm⟩
      · intro hnone
        rw [runStream, hr] at hnone
        simp at hnone

/-- C1: evaluating the wildcard field mapper at the specification example
(output pattern field_* and query result with entries x = 1 and y = [2, 3])
writes only the single field field_x, whose final value is the JSON text of
[2, 3]; no field_y is ever created.  The source reassigns its `output`
variable with the substituted name, so the star placeholder is gone when the
second entry is processed and the first derived field is overwritten.  This
refutes the claimed one-field-per-entry fan-out. -/
theorem C1_wildcard_overwrites_single_field :
    output_to_wildcard (.dict [(.str "x", .int 1), (.str "y", .list [.int 2, .int 3])])
      "field_*" [] = .ok [("field_x", .str "[2, 3]")] ∧
    getField [("field_x", PyVal.str "[2, 3]")] "field_y" = none :=
  ⟨rfl, rfl⟩

/-- C2 counterexample: flattening the entry value [2, 3] yields the two
tokens "2" and "3", whose zero/one/many reduction is the multivalue
["2", "3"]; but wildcard mode assigns the single JSON string "[2, 3]"
instead, so the flattener is not the source of the wildcard-mode value. -/
theorem C2_wildcard_value_not_flattened :
    flatten (.list [.int 2, .int 3]) = ["2", "3"] ∧
    output_to_wildcard (.dict [(.str "y", .list [.int 2, .int 3])]) "field_*" []
      = .ok [("field_y", .str "[2, 3]")] ∧
    PyVal.str "[2, 3]" ≠ PyVal.list [.str "2", .str "3"] :=
  ⟨rfl, rfl, fun h => PyVal.noConfusion h⟩

/-- C2 (amended): the flattener's zero/one/many reduction governs literal
mode only — output_to_field assigns exactly the reduction of the token
sequence (zero tokens set the field to null rather than leaving it unset) —
while wildcard mode computes each derived field value by its own rule and
disagrees with the reduction already on the value [2, 3]. -/
theorem C2_literal_reduction_only :
    (∀ (v : PyVal) (out : String) (record : Record),
      output_to_field v out record = setField record out (specLiteralReduce (flatten v))) ∧
    output_to_wildcard (.dict [(.str "y", .list [.int 2, .int 3])]) "field_*" []
      = .ok [("field_y", .str "[2, 3]")] ∧
    specLiteralReduce (flatten (.list [.int 2, .int 3])) = .list [.str "2", .str "3"] ∧
    PyVal.str "[2, 3]" ≠ PyVal.list [.str "2", .str "3"] :=
  ⟨output_to_field_spec, rfl, rfl, fun h => PyVal.noConfusion h⟩

/-- C2 witness: the literal-mode agreement instantiated at a scalar. -/
theorem C2_witness :
    output_to_field (.int 5) "out" [] = setField [] "out" (specLiteralReduce (flatten (.int 5))) :=
  C2_literal_reduction_only.1 (.int 5) "out" []

/-- C3 counterexample: flattening an empty array yields zero tokens, and the
output field is then assigned null — the key is present on the record — not
left unset as claimed. -/
theorem C3_zero_tokens_assign_null :
    output_to_field (.list []) "jpath" [] = [("jpath", PyVal.null)] ∧
    (getField (output_to_field (.list []) "jpath" []) "jpath").isSome = true :=
  ⟨rfl, rfl⟩

/-- C3 (amended): in literal mode the assigned value is exactly the
zero/one/many reduction of the flattened query result, with zero tokens
assigning null (a present field with a null value) instead of leaving the
field unset; one token is assigned as that scalar string and two or more as
the ordered list of token strings.  In particular an empty array gives a
null-valued field. -/
theorem C3_literal_mode_reduction :
    (∀ (v : PyVal) (out : String) (record : Record),
      output_to_field v out record = setField record out (specLiteralReduce (flatten v))) ∧
    flatten (.list []) = [] ∧
    output_to_field (.list []) "jpath" [] = [("jpath", PyVal.null)] :=
  ⟨output_to_field_spec, rfl, rfl⟩

/-- C3 witness: the literal-mode rule instantiated at a two-element array. -/
theorem C3_witness :
    output_to_field (.list [.str "a", .str "b"]) "jpath" []
      = setField [] "jpath" (specLiteralReduce (flatten (.list [.str "a", .str "b"]))) :=
  C3_literal_mode_reduction.1 (.list [.str "a", .str "b"]) "jpath" []

/-- C4 counterexample: a record whose input field holds an empty multivalue
list makes `field[0]` raise IndexError outside every handler: the stream
aborts with a non-ValueError exception and the record is not emitted,
contradicting the claim that every failure other than the unknown-function
class is contained to the record. -/
theorem C4_empty_multivalue_aborts :
    runStream ⟨"_jmespath_error", none, "_raw", "jpath"⟩ (fun _ => none) (fun _ => .ok none)
      [[("_raw", .list [])]] = ([], some .indexError) :=
  rfl

theorem processRecord_unknown_fn (cfg : StreamConfig) (p : String → Option PyVal)
    (q : PyVal → EvalOutcome) (r : Record) (s : String) (fj : PyVal) (m : String)
    (hf : extractField cfg r = .str s) (hp : p s = some fj) (hq : q fj = .unknownFunction m) :
    processRecord cfg p q r = .error (.valueError ("Issue with JMESPath expression. " ++ m)) := by
  rw [extractField] at hf
  cases hf0 : (getField r cfg.input).getD PyVal.null with
  | str s2 =>
    rw [hf0] at hf
    simp only [PyVal.str.injEq] at hf
    subst hf
    unfold processRecord
    rw [hf0]
    simp [hp, hq]
  | null => rw [hf0] at hf; simp at hf
  | bool b => rw [hf0] at hf; simp at hf
  | int n => rw [hf0] at hf; simp at hf
  | dict es => rw [hf0] at hf; simp at hf
  | list xs =>
    cases xs with
    | nil => rw [hf0] at hf; simp at hf
    | cons x tl =>
      rw [hf0] at hf
      cases x with
      | str s2 =>
        simp only [PyVal.str.injEq] at hf
        subst hf
        unfold processRecord
        rw [hf0]
        simp [hp, hq]
      | null => simp at hf
      | bool b => simp at hf
      | int n => simp at hf
      | dict es => simp at hf
      | list l2 => simp at hf

theorem processRecord_jmespath_err (cfg : StreamConfig) (p : String → Option PyVal)
    (q : PyVal → EvalOutcome) (r : Record) (s : String) (fj : PyVal) (m : String)
    (hf : extractField cfg r = .str s) (hp : p s = some fj) (hq : q fj = .jmespathError m) :
    processRecord cfg p q r = .ok (setField r cfg.error (.str ("JMESPath error: " ++ m))) := by
  rw [extractField] at hf
  cases hf0 : (getField r cfg.input).getD PyVal.null with
  | str s2 =>
    rw [hf0] at hf
    simp only [PyVal.str.injEq] at hf
    subst hf
    unfold processRecord
    rw [hf0]
    simp [hp, hq]
  | null => rw [hf0] at hf; simp at hf
  | bool b => rw [hf0] at hf; simp at hf
  | int n => rw [hf0] at hf; simp at hf
  | dict es => rw [hf0] at hf; simp at hf
  | list xs =>
    cases xs with
    | nil => rw [hf0] at hf; simp at hf
    | cons x tl =>
      rw [hf0] at hf
      cases x with
      | str s2 =>
        simp only [PyVal.str.injEq] at hf
        subst hf
        unfold processRecord
        rw [hf0]
        simp [hp, hq]
      | null => simp at hf
      | bool b => simp at hf
      | int n => simp at hf
      | dict es => simp at hf
      | list l2 => simp at hf

theorem processRecord_exception (cfg : StreamConfig) (p : String → Option PyVal)
    (q : PyVal → EvalOutcome) (r : Record) (s : String) (fj : PyVal) (m : String)
    (hf : extractField cfg r = .str s) (hp : p s = some fj) (hq : q fj = .exception m) :
    processRecord cfg p q r = .ok (setField r cfg.error (.str ("Exception: " ++ m))) := by
  rw [extractField] at hf
  cases hf0 : (getField r cfg.input).getD PyVal.null with
  | str s2 =>
    rw [hf0] at hf
    simp only [PyVal.str.injEq] at hf
    subst hf
    unfold processRecord
    rw [hf0]
    simp [hp, hq]
  | null => rw [hf0] at hf; simp at hf
  | bool b => rw [hf0] at hf; simp at hf
  | int n => rw [hf0] at hf; simp at hf
  | dict es => rw [hf0] at hf; simp at hf
  | list xs =>
    cases xs with
    | nil => rw [hf0] at hf; simp at hf
    | cons x tl =>
      rw [hf0] at hf
      cases x with
      | str s2 =>
        simp only [PyVal.str.injEq] at hf
        subst hf
        unfold processRecord
        rw [hf0]
        simp [hp, hq]
      | null => simp at hf
      | bool b => simp at hf
      | int n => simp at hf
      | dict es => simp at hf
      | list l2 => simp at hf

theorem processRecord_empty_input (cfg : StreamConfig) (p : String → Option PyVal)
    (q : PyVal → EvalOutcome) (r : Record)
    (hf0 : (getField r cfg.input).getD PyVal.null = .list []) :
    processRecord cfg p q r = .error .indexError := by
  unfold processRecord
  rw [hf0]

theorem processRecord_bad_input (cfg : StreamConfig) (p : String → Option PyVal)
    (q : PyVal → EvalOutcome) (r : Record)
    (hg : goodInput cfg r = false)
    (hne : ¬ (getField r cfg.input).getD PyVal.null = .list []) :
    processRecord cfg p q r = .error .typeError := by
  rw [goodInput, extractField] at hg
  cases hf0 : (getField r cfg.input).getD PyVal.null with
  | str s => rw [hf0] at hg; simp at hg
  | null => unfold processRecord; rw [hf0]
  | bool b => unfold processRecord; rw [hf0]
  | int n => unfold processRecord; rw [hf0]
  | dict es => unfold processRecord; rw [hf0]
  | list xs =>
    cases xs with
    | nil => exact absurd hf0 hne
    | cons x tl =>
      rw [hf0] at hg
      cases x with
      | str s2 => simp at hg
      | null => unfold processRecord; rw [hf0]
      | bool b => unfold processRecord; rw [hf0]
      | int n => unfold processRecord; rw [hf0]
      | dict es => unfold processRecord; rw [hf0]
      | list l2 => unfold processRecord; rw [hf0]

theorem runStream_cons_ok (cfg : StreamConfig) (p : String → Option PyVal)
    (q : PyVal → EvalOutcome) (r : Record) (rs : List Record) (r2 : Record)
    (h : processRecord cfg p q r = .ok r2) :
    runStream cfg p q (r :: rs) = (r2 :: (runStream cfg p q rs).1, (runStream cfg p q rs).2) := by
  rw [runStream, h]

theorem runStream_abort_at (cfg : StreamConfig) (p : String → Option PyVal)
    (q : PyVal → EvalOutcome) : ∀ (rs1 : List Record) (r : Record) (rs2 : List Record)
    (a : StreamAbort),
    (runStream cfg p q rs1).2 = none → processRecord cfg p q r = .error a →
    runStream cfg p q (rs1 ++ r :: rs2) = ((runStream cfg p q rs1).1, some a) := by
  intro rs1
  induction rs1 with
  | nil =>
    intro r rs2 a _ habort
    simp only [List.nil_append, runStream, habort]
  | cons r1 rs1 ih =>
    intro r rs2 a hclean habort
    cases hp1 : processRecord cfg p q r1 with
    | error a1 =>
      rw [runStream, hp1] at hclean
      simp at hclean
    | ok r12 =>
      rw [runStream, hp1] at hclean
      simp only at hclean
      have h2 := ih r rs2 a hclean habort
      simp only [List.cons_append, runStream, hp1, List.append_eq, h2]

/-- C4 (amended): the propagation policy for streams. Per record, with the
input field extracted to a string and parsed: an unknown-function outcome is
re-raised as a ValueError that escapes (aborting the stream), a JMESPath
error or an unexpected exception writes its diagnostic to the error field
with the record still emitted, and a parse failure writes the fixed
diagnostic with the record still emitted.  At stream level, an abort at any
record after a cleanly processed prefix emits exactly the prefix's records
and nothing further (stated in general and for the unknown-function class
in particular), while a contained record is emitted and processing
continues with the remaining records.  A record whose input field is an
empty multivalue list aborts uncaught with IndexError, and one whose
extracted input field is not a string aborts uncaught with TypeError; for
all-string-input streams, every abort is the unknown-function ValueError
and abort-free streams emit every record. -/
theorem C4_propagation_policy (cfg : StreamConfig) (p : String → Option PyVal)
    (q : PyVal → EvalOutcome) :
    (∀ (r : Record) (s : String) (fj : PyVal) (m : String),
      extractField cfg r = .str s → p s = some fj → q fj = .unknownFunction m →
      processRecord cfg p q r = .error (.valueError ("Issue with JMESPath expression. " ++ m))) ∧
    (∀ (rs1 : List Record) (r : Record) (rs2 : List Record) (a : StreamAbort),
      (runStream cfg p q rs1).2 = none → processRecord cfg p q r = .error a →
      runStream cfg p q (rs1 ++ r :: rs2) = ((runStream cfg p q rs1).1, some a)) ∧
    (∀ (rs1 : List Record) (r : Record) (rs2 : List Record) (s : String) (fj : PyVal)
        (m : String),
      (runStream cfg p q rs1).2 = none →
      extractField cfg r = .str s → p s = some fj → q fj = .unknownFunction m →
      runStream cfg p q (rs1 ++ r :: rs2) =
        ((runStream cfg p q rs1).1,
         some (.valueError ("Issue with JMESPath expression. " ++ m)))) ∧
    (∀ (r : Record) (s : String) (fj : PyVal) (m : String),
      extractField cfg r = .str s → p s = some fj → q fj = .jmespathError m →
      processRecord cfg p q r = .ok (setField r cfg.error (.str ("JMESPath error: " ++ m)))) ∧
    (∀ (r : Record) (s : String) (fj : PyVal) (m : String),
      extractField cfg r = .str s → p s = some fj → q fj = .exception m →
      processRecord cfg p q r = .ok (setField r cfg.error (.str ("Exception: " ++ m)))) ∧
    (∀ (r : Record) (s : String), extractField cfg r = .str s → p s = none →
      processRecord cfg p q r = .ok (setField r cfg.error (.str "Invalid JSON."))) ∧
    (∀ (r : Record) (rs : List Record) (r2 : Record), processRecord cfg p q r = .ok r2 →
      runStream cfg p q (r :: rs)
        = (r2 :: (runStream cfg p q rs).1, (runStream cfg p q rs).2)) ∧
    (∀ r : Record, (getField r cfg.input).getD PyVal.null = .list [] →
      processRecord cfg p q r = .error .indexError) ∧
    (∀ r : Record, goodInput cfg r = false →
      ¬ (getField r cfg.input).getD PyVal.null = .list [] →
      processRecord cfg p q r = .error .typeError) ∧
    (∀ records : List Record, records.all (goodInput cfg) = true →
      (∀ a, (runStream cfg p q records).2 = some a → ∃ m, a = .valueError m) ∧
      ((runStream cfg p q records).2 = none →
        (runStream cfg p q records).1.length = records.length)) := by
  refine ⟨?_, ?_, ?_, ?_, ?_, ?_, ?_, ?_, ?_, ?_⟩
  · exact fun r s fj m hf hp hq => processRecord_unknown_fn cfg p q r s fj m hf hp hq
  · exact fun rs1 r rs2 a hclean habort => runStream_abort_at cfg p q rs1 r rs2 a hclean habort
  · intro rs1 r rs2 s fj m hclean hf hp hq
    exact runStream_abort_at cfg p q rs1 r rs2 _ hclean
      (processRecord_unknown_fn cfg p q r s fj m hf hp hq)
  · exact fun r s fj m hf hp hq => processRecord_jmespath_err cfg p q r s fj m hf hp hq
  · exact fun r s fj m hf hp hq => processRecord_exception cfg p q r s fj m hf hp hq
  · exact fun r s hf hp => processRecord_parse_fail cfg p q r s hf hp
  · exact fun r rs r2 h => runStream_cons_ok cfg p q r rs r2 h
  · exact fun r hf0 => processRecord_empty_input cfg p q r hf0
  · exact fun r hg hne => processRecord_bad_input cfg p q r hg hne
  · exact fun records h => runStream_contained cfg p q records h

/-- C4 witness: an unknown-function evaluation aborts a two-record stream at
the first record with the re-raised ValueError, emitting nothing further;
and a one-record stream with an unparsable string input is fully emitted. -/
theorem C4_witness :
    (runStream ⟨"_jmespath_error", none, "_raw", "jpath"⟩ (fun _ => some PyVal.null)
        (fun _ => .unknownFunction "boom")
        [[("_raw", PyVal.str "x")], [("_raw", PyVal.str "y")]]
      = ([], some (.valueError "Issue with JMESPath expression. boom"))) ∧
    ([[("_raw", PyVal.str "z")]].all
      (goodInput ⟨"_jmespath_error", none, "_raw", "jpath"⟩) = true) ∧
    (runStream ⟨"_jmespath_error", none, "_raw", "jpath"⟩ (fun _ => none) (fun _ => .ok none)
      [[("_raw", PyVal.str "z")]]).1.length = 1 :=
  ⟨(C4_propagation_policy ⟨"_jmespath_error", none, "_raw", "jpath"⟩
      (fun _ => some PyVal.null) (fun _ => .unknownFunction "boom")).2.2.1
      [] [("_raw", PyVal.str "x")] [[("_raw", PyVal.str "y")]] "x" PyVal.null "boom"
      rfl rfl rfl rfl,
   rfl,
   ((C4_propagation_policy ⟨"_jmespath_error", none, "_raw", "jpath"⟩
      (fun _ => none) (fun _ => .ok none)).2.2.2.2.2.2.2.2.2
      [[("_raw", PyVal.str "z")]] rfl).2 rfl⟩

/-- C5 counterexample: to_hash stores the integer key 1 as-is — the
resulting object has a non-string key, refuting the claim that both to_hash
and unroll stringify non-string keys. -/
theorem C5_to_hash_keeps_int_key :
    func_to_hash [.list [.int 1, .str "a"]] = .dict [(.int 1, .str "a")] ∧
    isStrKey (.int 1) = false :=
  ⟨rfl, rfl⟩

/-- C5 (amended): every object returned by unroll has only string keys
(non-string keys are coerced with str); to_hash performs no such coercion
and uses keys as-is. -/
theorem C5_unroll_string_keys (objs : List PyVal) (kf vf : String)
    (d : List (PyKey × PyVal)) (h : func_unroll objs kf vf = .ok (.dict d)) :
    d.all (fun e => isStrKey e.1) = true := by
  rw [func_unroll] at h
  cases hu : unrollLoop kf vf objs [] with
  | error e =>
    rw [hu] at h
    exact Except.noConfusion h
  | ok d2 =>
    rw [hu] at h
    simp only [Except.map] at h
    injection h with h2
    injection h2 with h3
    rw [← h3]
    exact unrollLoop_strKeys kf vf objs [] d2 rfl hu

/-- C5 witness: an integer key field value is stored under the string
key "7". -/
theorem C5_witness :
    func_unroll [.dict [(.str "Name", .int 7), (.str "Value", .int 1)]] "Name" "Value"
      = .ok (.dict [(.str "7", .int 1)]) ∧
    ([((PyKey.str "7"), (PyVal.int 1))].all (fun e => isStrKey e.1)) = true :=
  ⟨rfl, C5_unroll_string_keys [.dict [(.str "Name", .int 7), (.str "Value", .int 1)]]
    "Name" "Value" [((PyKey.str "7"), (PyVal.int 1))] rfl⟩

/-- C6: for every array of objects, unroll agrees with the specification
loop (elements missing the key field or the value field are skipped and only
those; found keys are coerced to strings; aggregation in encounter order
stores an unseen key directly, promotes a seen scalar to the 2-element array
[old, new] and appends to an already-array value; first-occurrence key order
is preserved), and the specification example evaluates as claimed. -/
theorem C6_unroll_matches_spec (objs : List PyVal) (kf vf : String)
    (h : objs.all isDict = true) :
    func_unroll objs kf vf = .ok (.dict (liftEntries (specUnroll objs kf vf))) ∧
    func_unroll
      [.dict [(.str "Name", .str "x"), (.str "Value", .int 1)],
       .dict [(.str "Name", .str "x"), (.str "Value", .int 2)],
       .dict [(.str "Name", .str "y"), (.str "Value", .int 3)]] "Name" "Value"
      = .ok (.dict [(.str "x", .list [.int 1, .int 2]), (.str "y", .int 3)]) := by
  constructor
  · have h1 : unrollLoop kf vf objs [] = .ok (liftEntries (specUnrollLoop kf vf objs [])) :=
      unrollLoop_spec kf vf objs [] h
    rw [func_unroll, specUnroll, h1]
    rfl
  · rfl

/-- C6 witness: the refinement instantiated on a concrete one-object
array. -/
theorem C6_witness :
    ([PyVal.dict [(.str "a", .int 1)]].all isDict = true) ∧
    func_unroll [.dict [(.str "a", .int 1)]] "a" "a"
      = .ok (.dict (liftEntries (specUnroll [.dict [(.str "a", .int 1)]] "a" "a"))) :=
  ⟨rfl, (C6_unroll_matches_spec [.dict [(.str "a", .int 1)]] "a" "a" rfl).1⟩

/-- C7 counterexample: the element [["k"], 1] is decomposable into exactly
two items, yet to_hash produces the empty object — the pair is skipped
because its array key is unhashable, so not every decomposable pair has its
key set. -/
theorem C7_decomposable_pair_skipped :
    unpackTwo (.list [.list [.str "k"], .int 1]) = some (.list [.str "k"], .int 1) ∧
    func_to_hash [.list [.list [.str "k"], .int 1]] = .dict [] :=
  ⟨rfl, rfl⟩

/-- C7 (amended): to_hash iterates in order, silently skipping elements not
decomposable into two items and also decomposable pairs whose key is an
array or object (unhashable); every stored pair overwrites the value of an
equal earlier key while keeping its position, as the snoc characterizations
and the concrete example show. -/
theorem C7_to_hash_behaviour :
    (func_to_hash [.list [.str "a", .int 1], .list [.str "b", .int 2], .list [.str "a", .int 3]]
      = .dict [(.str "a", .int 3), (.str "b", .int 2)]) ∧
    (∀ (xs : List PyVal) (item : PyVal), unpackTwo item = none →
      func_to_hash (xs ++ [item]) = func_to_hash xs) ∧
    (∀ (xs : List PyVal) (item k v : PyVal), unpackTwo item = some (k, v) → toKey k = none →
      func_to_hash (xs ++ [item]) = func_to_hash xs) ∧
    (∀ (xs : List PyVal) (item k v : PyVal) (key q : PyKey),
      unpackTwo item = some (k, v) → toKey k = some key →
      dictLookup (toHashEntries (xs ++ [item])) q =
        if keyEq key q then some v else dictLookup (toHashEntries xs) q) := by
  refine ⟨rfl, ?_, ?_, ?_⟩
  · intro xs item h
    rw [func_to_hash, func_to_hash, toHashEntries_snoc, toHashStep, h]
  · intro xs item k v h hk
    rw [func_to_hash, func_to_hash, toHashEntries_snoc, toHashStep, h]
    simp [hk]
  · intro xs item k v key q h hk
    rw [toHashEntries_snoc, toHashStep, h]
    simp [hk, dictLookup_dictSet]

/-- C7 witness: a non-decomposable element is skipped. -/
theorem C7_witness :
    unpackTwo (.int 5) = none ∧
    func_to_hash [.list [.str "a", .int 1], .int 5] = func_to_hash [.list [.str "a", .int 1]] :=
  ⟨rfl, C7_to_hash_behaviour.2.1 [.list [.str "a", .int 1]] (.int 5) rfl⟩

/-- C8: for every real dict (pairwise distinct keys) whose keys do not
collide after stringification, to_hash applied to the items/pairs array
rebuilds exactly the original object, entry order included. -/
theorem C8_to_hash_pairs_inverse (es : List (PyKey × PyVal))
    (hwf : wfDict es = true) (_hcol : noStrCollide es = true) :
    func_to_hash (itemsOf es) = .dict es := by
  rw [func_to_hash, toHashEntries]
  rw [toHash_items_aux es [] hwf (by intro x hx e2 he2; exact absurd he2 (List.not_mem_nil e2))]
  rfl

/-- C8 witness: the inverse law on the two-entry object from the
specification. -/
theorem C8_witness :
    wfDict [(PyKey.str "a", PyVal.int 1), (.str "b", .int 2)] = true ∧
    noStrCollide [(PyKey.str "a", PyVal.int 1), (.str "b", .int 2)] = true ∧
    func_to_hash (itemsOf [(PyKey.str "a", PyVal.int 1), (.str "b", .int 2)])
      = .dict [(PyKey.str "a", PyVal.int 1), (.str "b", .int 2)] :=
  ⟨rfl, rfl, C8_to_hash_pairs_inverse [(PyKey.str "a", PyVal.int 1), (.str "b", .int 2)] rfl rfl⟩

/-- C9: from_string on a string never raises and returns the original
string unchanged when parsing fails (and the parsed value when it
succeeds); on an array it returns the independently parsed elements, and a
single element failure (unparsable text or a non-string element) makes the
whole call fail with no partial result. -/
theorem C9_from_string (p : String → Option PyVal) :
    (∀ s, ∃ r, func_from_string p (.str s) = .ok r) ∧
    (∀ s, p s = none → func_from_string p (.str s) = .ok (.str s)) ∧
    (∀ s v, p s = some v → func_from_string p (.str s) = .ok v) ∧
    (∀ xs ys, parseEach p xs = some ys → func_from_string p (.list xs) = .ok (.list ys)) ∧
    (∀ xs, parseEach p xs = none → ∃ e, func_from_string p (.list xs) = .error e) := by
  refine ⟨?_, ?_, ?_, ?_, ?_⟩
  · intro s
    cases hp : p s with
    | none => exact ⟨.str s, by simp [func_from_string, loads, hp]⟩
    | some v => exact ⟨v, by simp [func_from_string, loads, hp]⟩
  · intro s h
    simp [func_from_string, loads, h]
  · intro s v h
    simp [func_from_string, loads, h]
  · intro xs ys h
    simp only [func_from_string]
    rw [loadsEach_of_parseEach p xs ys h]
    rfl
  · intro xs h
    rcases loadsEach_of_parseEach_none p xs h with ⟨e, he⟩
    refine ⟨e, ?_⟩
    simp only [func_from_string, he]
    rfl

/-- C9 witness: a concrete parser for which an unparsable string is
returned unchanged and a parsable array element is parsed. -/
theorem C9_witness :
    ((fun s => if s = "1" then some (PyVal.int 1) else none) "x" = none) ∧
    func_from_string (fun s => if s = "1" then some (PyVal.int 1) else none) (.str "x")
      = .ok (.str "x") ∧
    parseEach (fun s => if s = "1" then some (PyVal.int 1) else none) [.str "1"]
      = some [.int 1] ∧
    func_from_string (fun s => if s = "1" then some (PyVal.int 1) else none) (.list [.str "1"])
      = .ok (.list [.int 1]) :=
  ⟨rfl,
   (C9_from_string (fun s => if s = "1" then some (PyVal.int 1) else none)).2.1 "x" rfl,
   rfl,
   (C9_from_string (fun s => if s = "1" then some (PyVal.int 1) else none)).2.2.2.1
     [.str "1"] [.int 1] rfl⟩

/-- C10 counterexample: the array [null, true] flattens to the tokens
"None" and "True" — Python str of the scalars — not to the literal "null"
(or an empty string) and "true" required by the claim. -/
theorem C10_null_token_is_python_str :
    flatten (.list [.null, .bool true]) = ["None", "True"] ∧
    ("None" ≠ "null") ∧ ("None" ≠ "") ∧ ("True" ≠ "true") :=
  ⟨rfl, by decide, by decide, by decide⟩

/-- C10 (amended): flattening an array yields exactly one token per element
in element order — the JSON text (Unicode preserved, not ASCII-escaped) for
array or object elements and the host (Python str) representation for other
elements: numbers without quotes, booleans as True/False and null as
None. -/
theorem C10_array_tokens :
    (∀ xs : List PyVal, flatten (.list xs) = xs.map elemTokenSpec) ∧
    pyStr .null = "None" ∧
    pyStr (.bool true) = "True" ∧
    pyStr (.bool false) = "False" ∧
    (∀ n : Int, pyStr (.int n) = toString n) ∧
    dumps (.str "é") = "\"é\"" :=
  ⟨flatten_list_map, rfl, rfl, rfl, fun _ => rfl, rfl⟩

/-- C10 witness: the token map instantiated at a mixed array. -/
theorem C10_witness :
    flatten (.list [.int 9, .list [.int 1]]) = [.int 9, .list [.int 1]].map elemTokenSpec :=
  C10_array_tokens.1 [.int 9, .list [.int 1]]
